import Mathlib

/-!
Verification of the core logic of the song-exploration dashboard (`app.py`):
the period (decade) classifier with its load-time filtering, the two-proportion
z-test, and the Welch mean comparison invoked by the hypothesis-test tab.

Numeric code is embedded over exact real arithmetic (`ℝ`), the usual
idealisation of the floating-point computations in the source; the standard
normal CDF used by `norm.cdf` is defined by its Gaussian integral.
-/

namespace App

/-- Period classifier, from `get_period` in `app.py` (lines 29–37).
A year is `none` when the upstream parse failed (pandas `NaN`), in which case
both chained comparisons in the source are false and the sentinel is returned. -/
def get_period (year : Option ℤ) : String :=
  match year with
  | none => "Outros"
  | some y =>
    if 1991 ≤ y ∧ y ≤ 2000 then "1991 - 2000"
    else if 2001 ≤ y ∧ y ≤ 2010 then "2001 - 2010"
    else if 2011 ≤ y ∧ y ≤ 2020 then "2011 - 2020"
    else "Outros"

/-- Year derivation, from `pd.to_numeric(df['track_album_release_date'].astype(str).str[:4],
errors='coerce')` in `app.py` line 26: the leading four characters parsed as an
integer (release years are four-digit), `none` on parse failure (pandas `NaN`). -/
def parseYear (s : String) : Option ℤ :=
  let cs := s.data.take 4
  if cs.length = 4 ∧ cs.all Char.isDigit then
    some (cs.foldl (fun acc c => 10 * acc + ((c.toNat : ℤ) - 48)) 0)
  else none

/-- A raw CSV row, restricted to the fields the load step derives from. -/
structure RawRow where
  track_album_release_date : String
  mode : ℤ
deriving DecidableEq

/-- A processed row as produced by `load_data`. -/
structure ProcRow where
  track_album_release_date : String
  mode : ℤ
  year : Option ℤ
  periodo : String
  mode_categoria : Option String
deriving DecidableEq

/-- The load step, from `load_data` in `app.py` (lines 26–47): derive `year` and
`periodo`, drop rows whose period is the sentinel `"Outros"`, then map `mode`
to its categorical label (`map` yields `none` off the domain `{0, 1}`). -/
def load_data (rows : List RawRow) : List ProcRow :=
  let withPeriod := rows.map (fun r =>
    let y := parseYear r.track_album_release_date
    ({ track_album_release_date := r.track_album_release_date, mode := r.mode,
       year := y, periodo := get_period y, mode_categoria := none } : ProcRow))
  let filtered := withPeriod.filter (fun r => r.periodo ≠ "Outros")
  filtered.map (fun r =>
    { r with mode_categoria :=
        if r.mode = 0 then some "Menor" else if r.mode = 1 then some "Maior" else none })

theorem get_period_ne_outros {y : Option ℤ} (h : get_period y ≠ "Outros") :
    ∃ n : ℤ, y = some n ∧ 1991 ≤ n ∧ n ≤ 2020 := by
  cases y with
  | none => exact absurd rfl h
  | some n =>
    refine ⟨n, rfl, ?_⟩
    simp only [get_period] at h
    split_ifs at h with h1 h2 h3
    · omega
    · omega
    · omega
    · exact absurd rfl h

/-- C2: the period classifier is total and deterministic, takes one of the four
labels, uses closed interval boundaries `[1991,2000]`, `[2001,2010]`,
`[2011,2020]`, sends everything else (missing years included) to the sentinel
`"Outros"`, and satisfies the stated boundary cases. -/
theorem get_period_buckets :
    (∀ y : ℤ,
      (get_period (some y) = "1991 - 2000" ↔ 1991 ≤ y ∧ y ≤ 2000) ∧
      (get_period (some y) = "2001 - 2010" ↔ 2001 ≤ y ∧ y ≤ 2010) ∧
      (get_period (some y) = "2011 - 2020" ↔ 2011 ≤ y ∧ y ≤ 2020) ∧
      (get_period (some y) = "Outros" ↔ ¬ (1991 ≤ y ∧ y ≤ 2020))) ∧
    get_period none = "Outros" ∧
    get_period (some 2000) = "1991 - 2000" ∧
    get_period (some 2001) = "2001 - 2010" ∧
    get_period (some 1990) = "Outros" ∧
    get_period (some 2021) = "Outros" ∧
    ∀ v : Option ℤ, get_period v = "1991 - 2000" ∨ get_period v = "2001 - 2010" ∨
      get_period v = "2011 - 2020" ∨ get_period v = "Outros" := by
  refine ⟨fun y => ?_, rfl, by decide, by decide, by decide, by decide, fun v => ?_⟩
  · simp only [get_period]
    split_ifs with h1 h2 h3 <;> refine ⟨?_, ?_, ?_, ?_⟩ <;> simp_all <;> omega
  · cases v with
    | none => exact Or.inr (Or.inr (Or.inr rfl))
    | some y =>
      simp only [get_period]
      split_ifs <;> simp

/-- C6: every row produced by the load step carries a period label different
from the sentinel, its `periodo` field is exactly the classifier applied to its
`year` field, and its year lies in `[1991, 2020]`. -/
theorem load_data_period_in_range (rows : List RawRow) (r : ProcRow)
    (hr : r ∈ load_data rows) :
    r.periodo ≠ "Outros" ∧ r.periodo = get_period r.year ∧
      ∃ n : ℤ, r.year = some n ∧ 1991 ≤ n ∧ n ≤ 2020 := by
  simp only [load_data, List.mem_map, List.mem_filter] at hr
  obtain ⟨r', ⟨⟨raw, -, rfl⟩, hr'per⟩, rfl⟩ := hr
  have hper : get_period (parseYear raw.track_album_release_date) ≠ "Outros" := by
    simpa using hr'per
  exact ⟨hper, rfl, get_period_ne_outros hper⟩

/-- A concrete raw row used to witness the load-step invariant. -/
def sampleRaw : RawRow :=
  { track_album_release_date := "1995-06-01", mode := 1 }

/-- The processed row `load_data` produces from `sampleRaw`. -/
def sampleProc : ProcRow :=
  { track_album_release_date := "1995-06-01", mode := 1, year := some 1995,
    periodo := "1991 - 2000", mode_categoria := some "Maior" }

/-- Witness for C6 at a concrete one-row dataset. -/
theorem load_data_period_in_range_witness :
    sampleProc ∈ load_data [sampleRaw] ∧
      (sampleProc.periodo ≠ "Outros" ∧ sampleProc.periodo = get_period sampleProc.year ∧
        ∃ n : ℤ, sampleProc.year = some n ∧ 1991 ≤ n ∧ n ≤ 2020) := by
  have hload : load_data [sampleRaw] = [sampleProc] := by decide
  have hmem : sampleProc ∈ load_data [sampleRaw] := by
    rw [hload]; exact List.mem_singleton_self _
  exact ⟨hmem, load_data_period_in_range _ _ hmem⟩

/-! ### The standard normal CDF

`scipy.stats.norm.cdf`, embedded as the Gaussian integral it computes. -/

/-- Density kernel of the standard normal distribution (up to the `√(2π)`
normalisation). -/
noncomputable def gaussDensity (t : ℝ) : ℝ := Real.exp (-(1 / 2) * t ^ 2)

/-- The standard normal CDF `Φ`, used by `norm.cdf` in `app.py` line 57. -/
noncomputable def Phi (x : ℝ) : ℝ :=
  (∫ t in Set.Iic x, gaussDensity t) / Real.sqrt (2 * Real.pi)

theorem gaussDensity_pos (t : ℝ) : 0 < gaussDensity t := Real.exp_pos _

theorem integrable_gaussDensity : MeasureTheory.Integrable gaussDensity :=
  @integrable_exp_neg_mul_sq (1 / 2) (by norm_num)

theorem integral_gaussDensity : ∫ t, gaussDensity t = Real.sqrt (2 * Real.pi) := by
  have h := integral_gaussian (1 / 2)
  have h2 : Real.pi / (1 / 2) = 2 * Real.pi := by ring
  rw [h2] at h
  exact h

theorem sqrt_two_pi_pos : 0 < Real.sqrt (2 * Real.pi) :=
  Real.sqrt_pos.mpr (by positivity)

theorem gaussDensity_even (t : ℝ) : gaussDensity (-t) = gaussDensity t := by
  simp [gaussDensity, neg_sq]

theorem integral_Iic_zero_gaussDensity :
    ∫ t in Set.Iic (0 : ℝ), gaussDensity t = Real.sqrt (2 * Real.pi) / 2 := by
  have hcongr : (∫ t in Set.Iic (0 : ℝ), gaussDensity t) =
      ∫ t in Set.Iic (0 : ℝ), gaussDensity (-t) :=
    (MeasureTheory.setIntegral_congr_fun measurableSet_Iic
      (fun t _ => gaussDensity_even t)).symm
  have hneg : (∫ t in Set.Iic (0 : ℝ), gaussDensity (-t)) =
      ∫ t in Set.Ioi (0 : ℝ), gaussDensity t := by
    simpa using integral_comp_neg_Iic (0 : ℝ) gaussDensity
  have hsplit : (∫ t in Set.Iic (0 : ℝ), gaussDensity t) +
      (∫ t in Set.Ioi (0 : ℝ), gaussDensity t) = ∫ t, gaussDensity t :=
    intervalIntegral.integral_Iic_add_Ioi
      integrable_gaussDensity.integrableOn integrable_gaussDensity.integrableOn
  rw [integral_gaussDensity] at hsplit
  rw [hcongr, hneg] at hsplit ⊢
  linarith

theorem Phi_zero : Phi 0 = 1 / 2 := by
  have h := sqrt_two_pi_pos.ne'
  rw [Phi, integral_Iic_zero_gaussDensity]
  field_simp
  ring

theorem Phi_mono : Monotone Phi := by
  intro x y hxy
  apply (div_le_div_iff_of_pos_right sqrt_two_pi_pos).mpr
  exact MeasureTheory.setIntegral_mono_set integrable_gaussDensity.integrableOn
    (MeasureTheory.ae_of_all _ fun t => (gaussDensity_pos t).le)
    ((Set.Iic_subset_Iic.mpr hxy).eventuallyLE)

theorem Phi_le_one (x : ℝ) : Phi x ≤ 1 := by
  rw [Phi, div_le_one sqrt_two_pi_pos, ← integral_gaussDensity]
  exact MeasureTheory.setIntegral_le_integral integrable_gaussDensity
    (MeasureTheory.ae_of_all _ fun t => (gaussDensity_pos t).le)

theorem half_le_Phi {x : ℝ} (hx : 0 ≤ x) : 1 / 2 ≤ Phi x :=
  Phi_zero ▸ Phi_mono hx

/-! ### The two-proportion z-test -/

/-- The one failure mode of `z_test_proportions` in the source: a Python
`ZeroDivisionError` when a sample size is zero. -/
inductive ZTestError where
  | zeroDivision
deriving DecidableEq

section
open Classical

/-- Two-proportion z-test, from `z_test_proportions` in `app.py` (lines 50–58).
Counts and sample sizes are the natural numbers the caller obtains from `len`;
arithmetic is over `ℝ`. A zero sample size raises (Python `ZeroDivisionError`);
the function performs no other input validation. -/
noncomputable def z_test_proportions (count1 nobs1 count2 nobs2 : ℕ) :
    Except ZTestError (ℝ × ℝ × ℝ × ℝ) :=
  if nobs1 = 0 ∨ nobs2 = 0 then .error .zeroDivision
  else
    let p1 : ℝ := count1 / nobs1
    let p2 : ℝ := count2 / nobs2
    let p_pool : ℝ := (count1 + count2) / (nobs1 + nobs2)
    let se : ℝ := Real.sqrt (p_pool * (1 - p_pool) * (1 / nobs1 + 1 / nobs2))
    if se = 0 then .ok (0, 1, p1, p2)
    else .ok ((p1 - p2) / se, 2 * (1 - Phi |(p1 - p2) / se|), p1, p2)

/-- The pooled proportion `p_pool` computed by the z-test. -/
noncomputable def pPool (count1 nobs1 count2 nobs2 : ℕ) : ℝ :=
  ((count1 : ℝ) + count2) / ((nobs1 : ℝ) + nobs2)

/-- The pooled standard error `se` computed by the z-test. -/
noncomputable def seVal (count1 nobs1 count2 nobs2 : ℕ) : ℝ :=
  Real.sqrt (pPool count1 nobs1 count2 nobs2 * (1 - pPool count1 nobs1 count2 nobs2) *
    (1 / (nobs1 : ℝ) + 1 / (nobs2 : ℝ)))

/-- The statistic returned by the z-test (0 in the degenerate `se = 0` branch). -/
noncomputable def zStat (count1 nobs1 count2 nobs2 : ℕ) : ℝ :=
  if seVal count1 nobs1 count2 nobs2 = 0 then 0
  else ((count1 : ℝ) / nobs1 - (count2 : ℝ) / nobs2) / seVal count1 nobs1 count2 nobs2

/-- The p-value returned by the z-test (1 in the degenerate `se = 0` branch). -/
noncomputable def pVal (count1 nobs1 count2 nobs2 : ℕ) : ℝ :=
  if seVal count1 nobs1 count2 nobs2 = 0 then 1
  else 2 * (1 - Phi |((count1 : ℝ) / nobs1 - (count2 : ℝ) / nobs2) /
    seVal count1 nobs1 count2 nobs2|)

end

theorem z_test_eq (count1 nobs1 count2 nobs2 : ℕ) (h1 : nobs1 ≠ 0) (h2 : nobs2 ≠ 0) :
    z_test_proportions count1 nobs1 count2 nobs2 =
      .ok (zStat count1 nobs1 count2 nobs2, pVal count1 nobs1 count2 nobs2,
        (count1 : ℝ) / nobs1, (count2 : ℝ) / nobs2) := by
  simp only [z_test_proportions, zStat, pVal, seVal, pPool]
  rw [if_neg (by simp [h1, h2])]
  split_ifs <;> rfl

/-- The z-test output as the spec words it for the non-degenerate case:
`p_a = count_a/n_a`, `p_b = count_b/n_b`, `p_pool = (count_a+count_b)/(n_a+n_b)`,
`se = sqrt(p_pool*(1-p_pool)*(1/n_a+1/n_b))`, `z = (p_a - p_b)/se`,
`p = 2*(1 - Phi |z|)`, returned as `(statistic, p_value, proportion_a, proportion_b)`. -/
noncomputable def z_test_spec_formula (count_a n_a count_b n_b : ℕ) : ℝ × ℝ × ℝ × ℝ :=
  let p_a : ℝ := count_a / n_a
  let p_b : ℝ := count_b / n_b
  let p_pool : ℝ := (count_a + count_b) / (n_a + n_b)
  let se : ℝ := Real.sqrt (p_pool * (1 - p_pool) * (1 / n_a + 1 / n_b))
  let z : ℝ := (p_a - p_b) / se
  (z, 2 * (1 - Phi |z|), p_a, p_b)

/-- C1: on positive sample sizes with counts bounded by them and non-zero pooled
standard error, `z_test_proportions` returns exactly the quadruple of the spec's
formulas: `z = (p_a-p_b)/se`, `p = 2*(1-Φ|z|)`, `p_a`, and `p_b`. -/
theorem z_test_matches_spec (count_a n_a count_b n_b : ℕ)
    (h1 : n_a ≠ 0) (h2 : n_b ≠ 0) (hca : count_a ≤ n_a) (hcb : count_b ≤ n_b)
    (hse : seVal count_a n_a count_b n_b ≠ 0) :
    z_test_proportions count_a n_a count_b n_b =
      .ok (z_test_spec_formula count_a n_a count_b n_b) := by
  simp only [seVal, pPool] at hse
  simp only [z_test_proportions, z_test_spec_formula]
  rw [if_neg (by simp [h1, h2]), if_neg hse]

/-- Witness for C1 at `(count_a, n_a, count_b, n_b) = (1, 2, 0, 2)`. -/
theorem z_test_matches_spec_witness :
    ((2 : ℕ) ≠ 0 ∧ (1 : ℕ) ≤ 2 ∧ (0 : ℕ) ≤ 2 ∧ seVal 1 2 0 2 ≠ 0) ∧
      z_test_proportions 1 2 0 2 = .ok (z_test_spec_formula 1 2 0 2) := by
  have hse : seVal 1 2 0 2 ≠ 0 := by
    have h : (0 : ℝ) < seVal 1 2 0 2 := by
      simp only [seVal, pPool]
      rw [Real.sqrt_pos]
      norm_num
    exact h.ne'
  exact ⟨⟨by decide, by decide, by decide, hse⟩,
    z_test_matches_spec 1 2 0 2 (by decide) (by decide) (by decide) (by decide) hse⟩

/-- C5: on positive sample sizes with zero pooled standard error the z-test takes
the guarded branch — no division by zero — and returns `z = 0`, `p = 1` together
with the two proportions. -/
theorem z_test_degenerate (count_a n_a count_b n_b : ℕ)
    (h1 : n_a ≠ 0) (h2 : n_b ≠ 0) (hse : seVal count_a n_a count_b n_b = 0) :
    z_test_proportions count_a n_a count_b n_b =
      .ok (0, 1, (count_a : ℝ) / n_a, (count_b : ℝ) / n_b) := by
  simp only [seVal, pPool] at hse
  simp only [z_test_proportions]
  rw [if_neg (by simp [h1, h2]), if_pos hse]

/-- Witness for C5 at the degenerate input `z_test(5,5,5,5)` (pooled proportion 1). -/
theorem z_test_degenerate_witness :
    ((5 : ℕ) ≠ 0 ∧ seVal 5 5 5 5 = 0) ∧
      z_test_proportions 5 5 5 5 = .ok (0, 1, ((5 : ℕ) : ℝ) / ((5 : ℕ) : ℝ),
        ((5 : ℕ) : ℝ) / ((5 : ℕ) : ℝ)) := by
  have hp : pPool 5 5 5 5 = 1 := by
    simp only [pPool]
    norm_num
  have hse : seVal 5 5 5 5 = 0 := by
    simp only [seVal, hp]
    simp
  exact ⟨⟨by decide, hse⟩, z_test_degenerate 5 5 5 5 (by decide) (by decide) hse⟩

/-- True iff the comparator returned a result rather than raising. -/
def returnsResult (r : Except ZTestError (ℝ × ℝ × ℝ × ℝ)) : Bool :=
  match r with
  | .ok _ => true
  | .error _ => false

/-- C3 counterexample: `z_test(6, 5, 2, 10)` — a count exceeding its sample
size — is not rejected: the function returns a numeric result instead of
raising any error. -/
theorem z_test_count_exceeding_not_rejected :
    returnsResult (z_test_proportions 6 5 2 10) = true := by
  simp only [z_test_proportions]
  rw [if_neg (by decide)]
  split_ifs <;> rfl

/-- C3 amended: the comparator fails (with a division-by-zero error — no
dedicated `InvalidInput` exists in the code) exactly when a sample size is
zero; counts exceeding their sample sizes are not validated. -/
theorem z_test_error_iff (count_a n_a count_b n_b : ℕ) :
    z_test_proportions count_a n_a count_b n_b = .error .zeroDivision ↔
      n_a = 0 ∨ n_b = 0 := by
  simp only [z_test_proportions]
  split_ifs with h hse
  · exact ⟨fun _ => h, fun _ => rfl⟩
  · simp [h]
  · simp [h]

/-- C7: swapping the two groups negates the statistic, preserves the p-value,
and swaps the reported proportions. -/
theorem z_test_swap (count_a n_a count_b n_b : ℕ) (h1 : n_a ≠ 0) (h2 : n_b ≠ 0)
    (hca : count_a ≤ n_a) (hcb : count_b ≤ n_b) :
    zStat count_b n_b count_a n_a = -(zStat count_a n_a count_b n_b) ∧
    pVal count_b n_b count_a n_a = pVal count_a n_a count_b n_b ∧
    z_test_proportions count_b n_b count_a n_a =
      .ok (-(zStat count_a n_a count_b n_b), pVal count_a n_a count_b n_b,
        (count_b : ℝ) / n_b, (count_a : ℝ) / n_a) := by
  have hpool : pPool count_b n_b count_a n_a = pPool count_a n_a count_b n_b := by
    simp only [pPool]
    rw [add_comm ((count_b : ℝ)), add_comm ((n_b : ℝ))]
  have hse : seVal count_b n_b count_a n_a = seVal count_a n_a count_b n_b := by
    unfold seVal
    rw [hpool, add_comm (1 / (n_b : ℝ))]
  have hz : zStat count_b n_b count_a n_a = -(zStat count_a n_a count_b n_b) := by
    unfold zStat
    rw [hse]
    split_ifs with h
    · rw [neg_zero]
    · rw [← neg_div, neg_sub]
  have hp : pVal count_b n_b count_a n_a = pVal count_a n_a count_b n_b := by
    unfold pVal
    rw [hse]
    split_ifs with h
    · rfl
    · have hq : ((count_b : ℝ) / n_b - (count_a : ℝ) / n_a) /
          seVal count_a n_a count_b n_b =
          -(((count_a : ℝ) / n_a - (count_b : ℝ) / n_b) /
            seVal count_a n_a count_b n_b) := by
        rw [← neg_div, neg_sub]
      rw [hq, abs_neg]
  refine ⟨hz, hp, ?_⟩
  rw [z_test_eq count_b n_b count_a n_a h2 h1, hz, hp]

/-- Witness for C7 at `(1, 2, 0, 2)` against `(0, 2, 1, 2)`. -/
theorem z_test_swap_witness :
    ((2 : ℕ) ≠ 0 ∧ (1 : ℕ) ≤ 2 ∧ (0 : ℕ) ≤ 2) ∧
      (zStat 0 2 1 2 = -(zStat 1 2 0 2) ∧ pVal 0 2 1 2 = pVal 1 2 0 2 ∧
        z_test_proportions 0 2 1 2 = .ok (-(zStat 1 2 0 2), pVal 1 2 0 2,
          ((0 : ℕ) : ℝ) / ((2 : ℕ) : ℝ), ((1 : ℕ) : ℝ) / ((2 : ℕ) : ℝ))) :=
  ⟨⟨by decide, by decide, by decide⟩,
    z_test_swap 1 2 0 2 (by decide) (by decide) (by decide) (by decide)⟩

/-- C8: equal but non-degenerate proportions give `z = 0` and `p = 1`. -/
theorem z_test_equal_proportions (count_a n_a count_b n_b : ℕ)
    (h1 : n_a ≠ 0) (h2 : n_b ≠ 0) (hca : count_a ≤ n_a) (hcb : count_b ≤ n_b)
    (heq : (count_a : ℝ) / n_a = (count_b : ℝ) / n_b)
    (hne0 : (count_a : ℝ) / n_a ≠ 0) (hne1 : (count_a : ℝ) / n_a ≠ 1) :
    z_test_proportions count_a n_a count_b n_b =
      .ok (0, 1, (count_a : ℝ) / n_a, (count_b : ℝ) / n_b) := by
  have hn1 : (0 : ℝ) < n_a := by exact_mod_cast Nat.pos_of_ne_zero h1
  have hn2 : (0 : ℝ) < n_b := by exact_mod_cast Nat.pos_of_ne_zero h2
  have hp_nonneg : (0 : ℝ) ≤ (count_a : ℝ) / n_a := by positivity
  have hp_le : (count_a : ℝ) / n_a ≤ 1 := by
    rw [div_le_one hn1]
    exact_mod_cast hca
  have hp_pos : (0 : ℝ) < (count_a : ℝ) / n_a := lt_of_le_of_ne hp_nonneg (Ne.symm hne0)
  have hp_lt : (count_a : ℝ) / n_a < 1 := lt_of_le_of_ne hp_le hne1
  have hcross : (count_a : ℝ) * n_b = count_b * n_a := by
    rw [div_eq_div_iff hn1.ne' hn2.ne'] at heq
    exact heq
  have hsum : ((n_a : ℝ) + n_b) ≠ 0 := by
    have : (0 : ℝ) < (n_a : ℝ) + n_b := by linarith
    exact this.ne'
  have hpool : pPool count_a n_a count_b n_b = (count_a : ℝ) / n_a := by
    unfold pPool
    rw [div_eq_div_iff hsum hn1.ne']
    linear_combination (-1 : ℝ) * hcross
  have hrad : 0 < pPool count_a n_a count_b n_b *
      (1 - pPool count_a n_a count_b n_b) * (1 / (n_a : ℝ) + 1 / (n_b : ℝ)) := by
    rw [hpool]
    have hfrac : (0 : ℝ) < 1 / (n_a : ℝ) + 1 / (n_b : ℝ) := by positivity
    have h1p : (0 : ℝ) < 1 - (count_a : ℝ) / n_a := by linarith
    exact mul_pos (mul_pos hp_pos h1p) hfrac
  have hse_ne : seVal count_a n_a count_b n_b ≠ 0 := by
    unfold seVal
    exact (Real.sqrt_pos.mpr hrad).ne'
  have hz : zStat count_a n_a count_b n_b = 0 := by
    unfold zStat
    rw [if_neg hse_ne, heq, sub_self, zero_div]
  have hp : pVal count_a n_a count_b n_b = 1 := by
    unfold pVal
    rw [if_neg hse_ne, heq, sub_self, zero_div, abs_zero, Phi_zero]
    norm_num
  rw [z_test_eq count_a n_a count_b n_b h1 h2, hz, hp]

/-- Witness for C8 at `(1, 2, 2, 4)` (both proportions `1/2`). -/
theorem z_test_equal_proportions_witness :
    (((1 : ℕ) : ℝ) / ((2 : ℕ) : ℝ) = ((2 : ℕ) : ℝ) / ((4 : ℕ) : ℝ) ∧
      ((1 : ℕ) : ℝ) / ((2 : ℕ) : ℝ) ≠ 0 ∧ ((1 : ℕ) : ℝ) / ((2 : ℕ) : ℝ) ≠ 1) ∧
      z_test_proportions 1 2 2 4 = .ok (0, 1, ((1 : ℕ) : ℝ) / ((2 : ℕ) : ℝ),
        ((2 : ℕ) : ℝ) / ((4 : ℕ) : ℝ)) := by
  have heq : ((1 : ℕ) : ℝ) / ((2 : ℕ) : ℝ) = ((2 : ℕ) : ℝ) / ((4 : ℕ) : ℝ) := by norm_num
  have h0 : ((1 : ℕ) : ℝ) / ((2 : ℕ) : ℝ) ≠ 0 := by norm_num
  have hone : ((1 : ℕ) : ℝ) / ((2 : ℕ) : ℝ) ≠ 1 := by norm_num
  exact ⟨⟨heq, h0, hone⟩, z_test_equal_proportions 1 2 2 4 (by decide) (by decide)
    (by decide) (by decide) heq h0 hone⟩

/-- C10: with positive sample sizes and counts bounded by them, the returned
p-value lies in `[0, 1]`. -/
theorem z_test_pvalue_mem_unit (count_a n_a count_b n_b : ℕ)
    (h1 : n_a ≠ 0) (h2 : n_b ≠ 0) (hca : count_a ≤ n_a) (hcb : count_b ≤ n_b) :
    z_test_proportions count_a n_a count_b n_b =
      .ok (zStat count_a n_a count_b n_b, pVal count_a n_a count_b n_b,
        (count_a : ℝ) / n_a, (count_b : ℝ) / n_b) ∧
    0 ≤ pVal count_a n_a count_b n_b ∧ pVal count_a n_a count_b n_b ≤ 1 := by
  refine ⟨z_test_eq count_a n_a count_b n_b h1 h2, ?_, ?_⟩
  · unfold pVal
    split_ifs with h
    · norm_num
    · have hle := Phi_le_one |((count_a : ℝ) / n_a - (count_b : ℝ) / n_b) /
        seVal count_a n_a count_b n_b|
      linarith
  · unfold pVal
    split_ifs with h
    · norm_num
    · have hge := half_le_Phi (abs_nonneg (((count_a : ℝ) / n_a - (count_b : ℝ) / n_b) /
        seVal count_a n_a count_b n_b))
      linarith

/-- Witness for C10 at `(3, 4, 1, 5)`. -/
theorem z_test_pvalue_mem_unit_witness :
    ((4 : ℕ) ≠ 0 ∧ (5 : ℕ) ≠ 0 ∧ (3 : ℕ) ≤ 4 ∧ (1 : ℕ) ≤ 5) ∧
      (z_test_proportions 3 4 1 5 = .ok (zStat 3 4 1 5, pVal 3 4 1 5,
          ((3 : ℕ) : ℝ) / ((4 : ℕ) : ℝ), ((1 : ℕ) : ℝ) / ((5 : ℕ) : ℝ)) ∧
        0 ≤ pVal 3 4 1 5 ∧ pVal 3 4 1 5 ≤ 1) :=
  ⟨⟨by decide, by decide, by decide, by decide⟩,
    z_test_pvalue_mem_unit 3 4 1 5 (by decide) (by decide) (by decide) (by decide)⟩

/-! ### The Student t CDF and the Welch mean comparator

The mean comparison in the source is `scipy.stats.ttest_ind(d1, d2,
equal_var=False)` (`app.py` line 241), a library routine whose implementation is
not part of this repository; the comparator is therefore modelled from the spec. -/

/-- Modelled from the spec: the density kernel of the Student t distribution
with `ν` degrees of freedom, up to its normalising constant. -/
noncomputable def studentDensity (ν u : ℝ) : ℝ := (1 + u ^ 2 / ν) ^ (-((ν + 1) / 2))

/-- Modelled from the spec: the CDF of the Student t distribution with `ν`
degrees of freedom, the normalised integral of its density kernel. -/
noncomputable def tCDF (ν x : ℝ) : ℝ :=
  (∫ u in Set.Iic x, studentDensity ν u) / ∫ u, studentDensity ν u

theorem studentDensity_pos {ν : ℝ} (hν : 0 < ν) (u : ℝ) : 0 < studentDensity ν u := by
  apply Real.rpow_pos_of_pos
  positivity

theorem studentDensity_le {ν : ℝ} (hν : 1 ≤ ν) (u : ℝ) :
    studentDensity ν u ≤ ν * (1 + u ^ 2)⁻¹ := by
  have hν0 : (0 : ℝ) < ν := lt_of_lt_of_le one_pos hν
  have hbase1 : (1 : ℝ) ≤ 1 + u ^ 2 / ν :=
    le_add_of_nonneg_right (div_nonneg (sq_nonneg u) hν0.le)
  have hbase0 : (0 : ℝ) < 1 + u ^ 2 / ν := lt_of_lt_of_le one_pos hbase1
  have hexp : (1 : ℝ) ≤ (ν + 1) / 2 := by linarith
  have hpow : 1 + u ^ 2 / ν ≤ (1 + u ^ 2 / ν) ^ ((ν + 1) / 2) := by
    calc 1 + u ^ 2 / ν = (1 + u ^ 2 / ν) ^ (1 : ℝ) := (Real.rpow_one _).symm
      _ ≤ (1 + u ^ 2 / ν) ^ ((ν + 1) / 2) :=
          Real.rpow_le_rpow_of_exponent_le hbase1 hexp
  have hstep1 : studentDensity ν u ≤ (1 + u ^ 2 / ν)⁻¹ := by
    rw [studentDensity, Real.rpow_neg hbase0.le]
    exact inv_anti₀ hbase0 hpow
  have hstep2 : (1 + u ^ 2 / ν)⁻¹ ≤ ν * (1 + u ^ 2)⁻¹ := by
    have hq : (1 + u ^ 2) / ν ≤ 1 + u ^ 2 / ν := by
      rw [add_div]
      have : 1 / ν ≤ 1 := by
        rw [div_le_one hν0]
        exact hν
      linarith
    have hq0 : (0 : ℝ) < (1 + u ^ 2) / ν := by positivity
    calc (1 + u ^ 2 / ν)⁻¹ ≤ ((1 + u ^ 2) / ν)⁻¹ := inv_anti₀ hq0 hq
      _ = ν * (1 + u ^ 2)⁻¹ := by
          rw [inv_div, div_eq_mul_inv]
  exact hstep1.trans hstep2

theorem continuous_studentDensity {ν : ℝ} (hν : 0 < ν) :
    Continuous (studentDensity ν) := by
  apply Continuous.rpow_const
  · exact continuous_const.add ((continuous_pow 2).div_const ν)
  · intro u
    left
    have : (0 : ℝ) < 1 + u ^ 2 / ν := by positivity
    exact this.ne'

theorem integrable_studentDensity {ν : ℝ} (hν : 1 ≤ ν) :
    MeasureTheory.Integrable (studentDensity ν) := by
  have hν0 : (0 : ℝ) < ν := lt_of_lt_of_le one_pos hν
  apply MeasureTheory.Integrable.mono
    (integrable_inv_one_add_sq.const_mul ν)
    (continuous_studentDensity hν0).aestronglyMeasurable
  apply MeasureTheory.ae_of_all
  intro u
  have h1 : (0 : ℝ) < studentDensity ν u := studentDensity_pos hν0 u
  have h2 : (0 : ℝ) < ν * (1 + u ^ 2)⁻¹ := by positivity
  rw [Real.norm_eq_abs, Real.norm_eq_abs, abs_of_pos h1, abs_of_pos h2]
  exact studentDensity_le hν u

theorem studentDensity_even (ν u : ℝ) : studentDensity ν (-u) = studentDensity ν u := by
  rw [studentDensity, studentDensity, neg_sq]

theorem integral_studentDensity_pos {ν : ℝ} (hν : 1 ≤ ν) :
    0 < ∫ u, studentDensity ν u := by
  have hν0 : (0 : ℝ) < ν := lt_of_lt_of_le one_pos hν
  rw [MeasureTheory.integral_pos_iff_support_of_nonneg
    (fun u => (studentDensity_pos hν0 u).le) (integrable_studentDensity hν)]
  have hsupp : Function.support (studentDensity ν) = Set.univ :=
    Set.eq_univ_iff_forall.mpr fun u =>
      Function.mem_support.mpr (studentDensity_pos hν0 u).ne'
  rw [hsupp]
  exact isOpen_univ.measure_pos MeasureTheory.volume Set.univ_nonempty

theorem integral_Iic_zero_studentDensity {ν : ℝ} (hν : 1 ≤ ν) :
    ∫ u in Set.Iic (0 : ℝ), studentDensity ν u = (∫ u, studentDensity ν u) / 2 := by
  have hcongr : (∫ u in Set.Iic (0 : ℝ), studentDensity ν u) =
      ∫ u in Set.Iic (0 : ℝ), studentDensity ν (-u) :=
    (MeasureTheory.setIntegral_congr_fun measurableSet_Iic
      (fun u _ => studentDensity_even ν u)).symm
  have hneg : (∫ u in Set.Iic (0 : ℝ), studentDensity ν (-u)) =
      ∫ u in Set.Ioi (0 : ℝ), studentDensity ν u := by
    simpa using integral_comp_neg_Iic (0 : ℝ) (studentDensity ν)
  have hsplit : (∫ u in Set.Iic (0 : ℝ), studentDensity ν u) +
      (∫ u in Set.Ioi (0 : ℝ), studentDensity ν u) = ∫ u, studentDensity ν u :=
    intervalIntegral.integral_Iic_add_Ioi
      (integrable_studentDensity hν).integrableOn
      (integrable_studentDensity hν).integrableOn
  rw [hcongr, hneg] at hsplit ⊢
  linarith

theorem tCDF_zero {ν : ℝ} (hν : 1 ≤ ν) : tCDF ν 0 = 1 / 2 := by
  have h := (integral_studentDensity_pos hν).ne'
  rw [tCDF, integral_Iic_zero_studentDensity hν]
  field_simp
  ring

/-- Modelled from the spec: missing entries (NaN/absent, `none`) are dropped
before any size or statistic is computed, as `dropna()` does in the caller. -/
def dropMissing (xs : List (Option ℝ)) : List ℝ := xs.filterMap id

/-- Modelled from the spec: the sample mean. -/
noncomputable def mean (xs : List ℝ) : ℝ := xs.sum / xs.length

/-- Modelled from the spec: the unbiased sample variance (divisor `n - 1`). -/
noncomputable def sampleVar (xs : List ℝ) : ℝ :=
  ((xs.map fun x => (x - mean xs) ^ 2).sum) / ((xs.length : ℝ) - 1)

/-- The one failure mode of the mean comparator: fewer than 2 values in either
sample after dropping missing entries. -/
inductive TTestError where
  | insufficientData
deriving DecidableEq

section
open Classical

/-- Modelled from the spec: the Welch two-sample t-test — the mean comparator
realised in the source by `scipy.stats.ttest_ind(d1, d2, equal_var=False)`
(`app.py` line 241), whose implementation is not in this repository. Fewer than
2 values in either sample is the `InsufficientData` failure; two zero-variance
samples with equal means give the neutral `t = 0, p = 1`; otherwise the Welch
statistic, the Welch–Satterthwaite degrees of freedom, and the two-sided
p-value from the Student t CDF. -/
noncomputable def t_test (a b : List (Option ℝ)) : Except TTestError (ℝ × ℝ × ℝ × ℝ) :=
  let da := dropMissing a
  let db := dropMissing b
  if da.length < 2 ∨ db.length < 2 then .error .insufficientData
  else
    let m1 := mean da
    let m2 := mean db
    let v1 := sampleVar da
    let v2 := sampleVar db
    if v1 = 0 ∧ v2 = 0 ∧ m1 = m2 then .ok (0, 1, m1, m2)
    else
      let q1 := v1 / (da.length : ℝ)
      let q2 := v2 / (db.length : ℝ)
      let t := (m1 - m2) / Real.sqrt (q1 + q2)
      let df := (q1 + q2) ^ 2 /
        (q1 ^ 2 / ((da.length : ℝ) - 1) + q2 ^ 2 / ((db.length : ℝ) - 1))
      .ok (t, 2 * (1 - tCDF df |t|), m1, m2)

end

/-- C4: the mean comparator fails with `InsufficientData` whenever either
sample has fewer than 2 values after dropping missing entries. -/
theorem t_test_insufficient (a b : List (Option ℝ))
    (h : (dropMissing a).length < 2 ∨ (dropMissing b).length < 2) :
    t_test a b = .error .insufficientData := by
  simp only [t_test]
  rw [if_pos h]

/-- Witness for C4 at `t_test([5.0], [1.0, 2.0])`. -/
theorem t_test_insufficient_witness :
    ((dropMissing [some (5 : ℝ)]).length < 2 ∨
      (dropMissing [some (1 : ℝ), some 2]).length < 2) ∧
      t_test [some (5 : ℝ)] [some (1 : ℝ), some 2] = .error .insufficientData := by
  have h : (dropMissing [some (5 : ℝ)]).length < 2 ∨
      (dropMissing [some (1 : ℝ), some 2]).length < 2 := by
    left
    simp [dropMissing]
  exact ⟨h, t_test_insufficient _ _ h⟩

/-- C9: applied to two identical samples with non-zero variance, the mean
comparator returns statistic 0 and p-value 1 with equal reported means. -/
theorem t_test_identical (a : List (Option ℝ))
    (hlen : 2 ≤ (dropMissing a).length) (hvar : sampleVar (dropMissing a) ≠ 0) :
    t_test a a = .ok (0, 1, mean (dropMissing a), mean (dropMissing a)) := by
  have hn2 : (2 : ℝ) ≤ ((dropMissing a).length : ℝ) := by exact_mod_cast hlen
  have hn0 : ((dropMissing a).length : ℝ) ≠ 0 := by linarith
  have hn1 : ((dropMissing a).length : ℝ) - 1 ≠ 0 := by linarith
  have hq : sampleVar (dropMissing a) / ((dropMissing a).length : ℝ) ≠ 0 :=
    div_ne_zero hvar hn0
  simp only [t_test]
  rw [if_neg (by omega), if_neg (fun hdeg => hvar hdeg.1)]
  have ht : (mean (dropMissing a) - mean (dropMissing a)) /
      Real.sqrt (sampleVar (dropMissing a) / ((dropMissing a).length : ℝ) +
        sampleVar (dropMissing a) / ((dropMissing a).length : ℝ)) = 0 := by
    rw [sub_self, zero_div]
  rw [ht, abs_zero]
  have hdf : (sampleVar (dropMissing a) / ((dropMissing a).length : ℝ) +
        sampleVar (dropMissing a) / ((dropMissing a).length : ℝ)) ^ 2 /
      ((sampleVar (dropMissing a) / ((dropMissing a).length : ℝ)) ^ 2 /
          (((dropMissing a).length : ℝ) - 1) +
        (sampleVar (dropMissing a) / ((dropMissing a).length : ℝ)) ^ 2 /
          (((dropMissing a).length : ℝ) - 1)) =
      2 * (((dropMissing a).length : ℝ) - 1) := by
    field_simp
    ring
  rw [hdf, tCDF_zero (by linarith)]
  norm_num

/-- Witness for C9 at `t_test([1.0,2.0,3.0], [1.0,2.0,3.0])`, whose means are 2. -/
theorem t_test_identical_witness :
    (2 ≤ (dropMissing [some (1 : ℝ), some 2, some 3]).length ∧
      sampleVar (dropMissing [some (1 : ℝ), some 2, some 3]) ≠ 0) ∧
      t_test [some (1 : ℝ), some 2, some 3] [some (1 : ℝ), some 2, some 3] =
        .ok (0, 1, 2, 2) := by
  have hdrop : dropMissing [some (1 : ℝ), some 2, some 3] = [1, 2, 3] := by
    simp [dropMissing]
  have hlen : 2 ≤ (dropMissing [some (1 : ℝ), some 2, some 3]).length := by
    rw [hdrop]
    norm_num
  have hmean : mean [(1 : ℝ), 2, 3] = 2 := by
    norm_num [mean]
  have hvar : sampleVar [(1 : ℝ), 2, 3] = 1 := by
    norm_num [sampleVar, hmean]
  have hvar_ne : sampleVar (dropMissing [some (1 : ℝ), some 2, some 3]) ≠ 0 := by
    rw [hdrop, hvar]
    norm_num
  have hres := t_test_identical [some (1 : ℝ), some 2, some 3] hlen hvar_ne
  rw [hdrop, hmean] at hres
  exact ⟨⟨hlen, hvar_ne⟩, hres⟩

end App
